import Mathlib

/-!
Verification of `plaintext/newline_to_null.py`.

The script reads `NUMBER_OF_WORDS` lines from a text file opened in mode
`"rt"`, replaces every newline character in each line with a NUL character,
re-encodes the line as UTF-8 bytes, accumulates the byte length, writes the
bytes to `wordtable.bin`, and finally writes a small generated C fragment
`../src/globals/sizes.c` containing two constants.

We model file contents at the byte level: a file is a `List Nat` of byte
values.  This is faithful for any source that decodes under UTF-8, because
UTF-8 decoding followed by UTF-8 encoding is the identity on bytes, the
code points `'\n'` (U+000A) and `'\0'` (U+0000) are encoded as the single
bytes `0x0A` and `0x00`, and the byte `0x0A` never occurs inside the UTF-8
encoding of any other code point (continuation bytes are `>= 0x80`), so
Python's per-character operations `str.replace('\n', '\0')` and `len` on
the re-encoded `bytes` coincide with byte-level replacement and byte count.
Python's text mode (`"rt"`, `newline=None`) performs universal-newline
translation before the program sees the characters; we model that
explicitly.
-/

namespace NewlineToNull

/-- A byte of file content, as a natural number (0..255). -/
abbrev Byte := Nat

/-- Universal-newline translation performed by Python when a file is opened
in text mode `"rt"` with the default `newline=None`: each `"\r\n"` pair and
each lone `"\r"` (byte 13) is translated to `"\n"` (byte 10). -/
def univNewlines : List Byte → List Byte
  | [] => []
  | [b] => if b = 13 then [10] else [b]
  | b :: c :: rest =>
    if b = 13 then
      if c = 10 then 10 :: univNewlines rest
      else 10 :: univNewlines (c :: rest)
    else b :: univNewlines (c :: rest)

/-- Models `i.readline()` on the (already newline-translated) remaining file
content: returns the next line, up to and including the first `"\n"` (byte
10), together with the unread remainder.  At end of file the line is empty;
a final line lacking a newline is returned without one.  `readline` never
fails. -/
def readline : List Byte → List Byte × List Byte
  | [] => ([], [])
  | b :: rest =>
    if b = 10 then ([10], rest)
    else (b :: (readline rest).1, (readline rest).2)

/-- Models `line.replace('\n', '\0')` followed by re-encoding: every byte 10
is replaced by byte 0.  Python's `str.replace` replaces all occurrences. -/
def replaceNL (l : List Byte) : List Byte :=
  l.map (fun b => if b = 10 then 0 else b)

/-- Models the conversion loop
`for count in range(n): line = bytes(i.readline().replace('\n','\0'), encoding="utf-8"); length += len(line); o.write(line)`
on translated content `src`.  Returns the concatenation of all bytes written
to `wordtable.bin`, the final value of the accumulator `length`, and the
unread remainder of the source. -/
def convLoop : Nat → List Byte → List Byte × Nat × List Byte
  | 0, src => ([], 0, src)
  | n + 1, src =>
    let p := readline src
    let lb := replaceNL p.1
    let q := convLoop n p.2
    (lb ++ q.1, lb.length + q.2.1, q.2.2)

/-- The configured word count, line 21 of the script. -/
def NUMBER_OF_WORDS : Nat := 50000

/-- Content of the binary output file `wordtable.bin` when the script runs
with configured word count `n` on a source file whose raw bytes are `src`. -/
def wordtableBin (src : List Byte) (n : Nat) : List Byte :=
  (convLoop n (univNewlines src)).1

/-- Final value of the accumulator variable `length`. -/
def tableLength (src : List Byte) (n : Nat) : Nat :=
  (convLoop n (univNewlines src)).2.1

/-- The unread remainder of the source after the conversion loop. -/
def remInput (src : List Byte) (n : Nat) : List Byte :=
  (convLoop n (univNewlines src)).2.2

/-- The integer substituted for `%d` in the emitter: `length - 1`, computed
with Python integer arithmetic (may be negative). -/
def emittedStrlen (src : List Byte) (n : Nat) : Int :=
  (tableLength src n : Int) - 1

/-- Content of the generated file `../src/globals/sizes.c`, translated from
the `sizes.write(...)` call (lines 38-45 of the script).  Note that the
word-count constant in the emitted text is the hardcoded literal `50000`
from line 42, independent of the configured count `n`. -/
def sizesC (src : List Byte) (n : Nat) : String :=
  "#include <stdint.h>\n#include <stddef.h>\n#include \"cobalt.h\"\n\nconst uint16_t NUMBER_OF_WORDS = 50000;\nconst size_t WORDTABLE_STRLEN = " ++ toString (emittedStrlen src n) ++ ";"

/-- Modelled from the spec: the generated-constants fragment structure
required by spec section 6, with the word count `n` and the table length `s`
substituted.  Used to compare the emitter's actual output against the
structure the spec demands. -/
def sizesFragment (n : Nat) (s : Int) : String :=
  "#include <stdint.h>\n#include <stddef.h>\n#include \"cobalt.h\"\n\nconst uint16_t NUMBER_OF_WORDS = " ++ toString n ++ ";\nconst size_t WORDTABLE_STRLEN = " ++ toString s ++ ";"

/-- Modelled from the spec: replace the first (and only expected) newline
character with a single null byte (spec section 4.1).  Contrast with
`replaceNL`, which is the code's replace-all transform. -/
def replaceFirstNL : List Byte → List Byte
  | [] => []
  | b :: rest =>
    if b = 10 then 0 :: rest
    else b :: replaceFirstNL rest

/-- Formalization of the spec's round-trip operation "splitting the binary
output file on `0x00` bytes" (spec section 8), with the standard splitting
semantics of Python `bytes.split(b'\0')`: the list of maximal chunks
between separator bytes, so `splitOnNull [] = [[]]` and a trailing
separator contributes a trailing empty chunk. -/
def splitOnNull : List Byte → List (List Byte)
  | [] => [[]]
  | b :: rest =>
    if b = 0 then [] :: splitOnNull rest
    else (b :: (splitOnNull rest).headI) :: (splitOnNull rest).tail

/-! ### Basic lemmas about the embedded operations -/

theorem readline_cons_ne (b : Byte) (rest : List Byte) (h : b ≠ 10) :
    readline (b :: rest) = (b :: (readline rest).1, (readline rest).2) := by
  simp [readline, h]

theorem readline_no10 (w : List Byte) (h : 10 ∉ w) : readline w = (w, []) := by
  induction w with
  | nil => rfl
  | cons b t ih =>
    simp only [List.mem_cons, not_or] at h
    rw [readline_cons_ne b t (Ne.symm h.1), ih h.2]

theorem readline_word (w rest : List Byte) (h : 10 ∉ w) :
    readline (w ++ 10 :: rest) = (w ++ [10], rest) := by
  induction w with
  | nil => simp [readline]
  | cons b t ih =>
    simp only [List.mem_cons, not_or] at h
    rw [List.cons_append, readline_cons_ne b _ (Ne.symm h.1), ih h.2]
    rfl

theorem replaceNL_append (a b : List Byte) :
    replaceNL (a ++ b) = replaceNL a ++ replaceNL b :=
  List.map_append _ a b

theorem replaceNL_no10 (w : List Byte) (h : 10 ∉ w) : replaceNL w = w := by
  induction w with
  | nil => rfl
  | cons b t ih =>
    simp only [List.mem_cons, not_or] at h
    simp only [replaceNL, List.map_cons, if_neg (Ne.symm h.1)]
    rw [show List.map (fun b => if b = 10 then 0 else b) t = replaceNL t from rfl, ih h.2]

theorem replaceNL_word (w : List Byte) (h : 10 ∉ w) :
    replaceNL (w ++ [10]) = w ++ [0] := by
  rw [replaceNL_append, replaceNL_no10 w h]
  rfl

theorem not_mem_replaceNL (l : List Byte) : 10 ∉ replaceNL l := by
  intro hmem
  rw [replaceNL, List.mem_map] at hmem
  obtain ⟨a, _, ha⟩ := hmem
  by_cases h : a = 10
  · rw [if_pos h] at ha
    exact absurd ha (by decide)
  · rw [if_neg h] at ha
    exact h ha

theorem convLoop_nil (n : Nat) : convLoop n [] = ([], 0, []) := by
  induction n with
  | zero => rfl
  | succ n ih => simp [convLoop, readline, replaceNL, ih]

theorem convLoop_add (a b : Nat) (src : List Byte) :
    convLoop (a + b) src
      = ((convLoop a src).1 ++ (convLoop b (convLoop a src).2.2).1,
         (convLoop a src).2.1 + (convLoop b (convLoop a src).2.2).2.1,
         (convLoop b (convLoop a src).2.2).2.2) := by
  induction a generalizing src with
  | zero => simp [convLoop]
  | succ a ih =>
    rw [show a + 1 + b = (a + b) + 1 from by omega]
    simp [convLoop, ih, List.append_assoc, Nat.add_assoc]

theorem convLoop_succ_word (n : Nat) (w rest : List Byte) (hw : 10 ∉ w) :
    convLoop (n + 1) (w ++ 10 :: rest)
      = ((w ++ [0]) ++ (convLoop n rest).1,
         (w.length + 1) + (convLoop n rest).2.1,
         (convLoop n rest).2.2) := by
  simp only [convLoop, readline_word w rest hw, replaceNL_word w hw,
    Prod.mk.injEq, List.length_append, List.length_cons, List.length_nil]

theorem convLoop_words (ws : List (List Byte)) (r : List Byte)
    (h : ∀ w ∈ ws, 10 ∉ w) :
    convLoop ws.length ((ws.map (fun w => w ++ [10])).flatten ++ r)
      = ((ws.map (fun w => w ++ [0])).flatten,
         (ws.map List.length).sum + ws.length, r) := by
  induction ws with
  | nil => simp [convLoop]
  | cons w t ih =>
    have hw : 10 ∉ w := h w (List.mem_cons_self w t)
    have ht : ∀ u ∈ t, 10 ∉ u := fun u hu => h u (List.mem_cons_of_mem w hu)
    have hsrc : (List.map (fun u => u ++ [10]) (w :: t)).flatten ++ r
        = w ++ 10 :: ((List.map (fun u => u ++ [10]) t).flatten ++ r) := by
      simp [List.append_assoc]
    simp only [List.length_cons]
    rw [hsrc, convLoop_succ_word t.length _ _ hw, ih ht]
    simp only [List.map_cons, List.flatten_cons, List.sum_cons, Prod.mk.injEq,
      List.append_assoc, List.cons_append, List.singleton_append,
      List.nil_append]
    exact ⟨trivial, by omega, trivial⟩

theorem convLoop_length (n : Nat) (src : List Byte) :
    (convLoop n src).2.1 = (convLoop n src).1.length := by
  induction n generalizing src with
  | zero => rfl
  | succ n ih => simp [convLoop, ih, List.length_append]

theorem convLoop_not_mem10 (n : Nat) (src : List Byte) :
    10 ∉ (convLoop n src).1 := by
  induction n generalizing src with
  | zero => simp [convLoop]
  | succ n ih =>
    intro hmem
    simp only [convLoop, List.mem_append] at hmem
    rcases hmem with h1 | h2
    · exact not_mem_replaceNL _ h1
    · exact ih _ h2

theorem univNewlines_cons_ne13 (b : Byte) (l : List Byte) (h : b ≠ 13) :
    univNewlines (b :: l) = b :: univNewlines l := by
  cases l with
  | nil => simp [univNewlines, h]
  | cons c r => simp [univNewlines, h]

theorem univNewlines_append_no13 (a b : List Byte) (h : 13 ∉ a) :
    univNewlines (a ++ b) = a ++ univNewlines b := by
  induction a with
  | nil => rfl
  | cons x t ih =>
    simp only [List.mem_cons, not_or] at h
    rw [List.cons_append, univNewlines_cons_ne13 x _ (Ne.symm h.1), ih h.2,
      List.cons_append]

theorem univNewlines_no13 (s : List Byte) (h : 13 ∉ s) : univNewlines s = s := by
  have h2 := univNewlines_append_no13 s [] h
  rw [show univNewlines ([] : List Byte) = [] from by simp [univNewlines],
    List.append_nil] at h2
  exact h2

theorem splitOnNull_cons0 (l : List Byte) :
    splitOnNull (0 :: l) = [] :: splitOnNull l := by
  simp [splitOnNull]

theorem splitOnNull_word (w l : List Byte) (h : 0 ∉ w) :
    splitOnNull (w ++ 0 :: l) = w :: splitOnNull l := by
  induction w with
  | nil => simp [splitOnNull]
  | cons b t ih =>
    simp only [List.mem_cons, not_or] at h
    rw [List.cons_append]
    simp [splitOnNull, Ne.symm h.1, ih h.2]

theorem splitOnNull_flatten (ws : List (List Byte)) (h : ∀ w ∈ ws, 0 ∉ w) :
    splitOnNull ((ws.map (fun w => w ++ [0])).flatten) = ws ++ [[]] := by
  induction ws with
  | nil => rfl
  | cons w t ih =>
    simp only [List.map_cons, List.flatten_cons, List.append_assoc,
      List.singleton_append]
    rw [splitOnNull_word w _ (h w (List.mem_cons_self w t)),
      ih (fun u hu => h u (List.mem_cons_of_mem w hu)), List.cons_append]

theorem readline_shape (src : List Byte) :
    10 ∉ (readline src).1 ∨ ∃ w, 10 ∉ w ∧ (readline src).1 = w ++ [10] := by
  induction src with
  | nil =>
    left
    simp [readline]
  | cons b t ih =>
    by_cases hb : b = 10
    · subst hb
      right
      exact ⟨[], by simp, by simp [readline]⟩
    · rw [readline_cons_ne b t hb]
      rcases ih with h | ⟨w, hw, he⟩
      · left
        simp only [List.mem_cons, not_or]
        exact ⟨fun e => hb e.symm, h⟩
      · right
        refine ⟨b :: w, ?_, ?_⟩
        · simp only [List.mem_cons, not_or]
          exact ⟨fun e => hb e.symm, hw⟩
        · rw [he, List.cons_append]

theorem replaceFirstNL_no10 (w : List Byte) (h : 10 ∉ w) :
    replaceFirstNL w = w := by
  induction w with
  | nil => rfl
  | cons b t ih =>
    simp only [List.mem_cons, not_or] at h
    simp [replaceFirstNL, Ne.symm h.1, ih h.2]

theorem replaceFirstNL_word (w : List Byte) (h : 10 ∉ w) :
    replaceFirstNL (w ++ [10]) = w ++ [0] := by
  induction w with
  | nil => simp [replaceFirstNL]
  | cons b t ih =>
    simp only [List.mem_cons, not_or] at h
    simp [replaceFirstNL, Ne.symm h.1, ih h.2]

theorem no13_flattenWords (ws : List (List Byte)) (h : ∀ w ∈ ws, 13 ∉ w) :
    13 ∉ (ws.map (fun w => w ++ [10])).flatten := by
  intro hm
  rw [List.mem_flatten] at hm
  obtain ⟨l, hl, h13l⟩ := hm
  rw [List.mem_map] at hl
  obtain ⟨w, hw, rfl⟩ := hl
  rcases List.mem_append.mp h13l with h1 | h2
  · exact h w hw h1
  · exact absurd h2 (by decide)

theorem wordtableBin_words (ws : List (List Byte)) (rest : List Byte)
    (h : ∀ w ∈ ws, 10 ∉ w ∧ 13 ∉ w) :
    wordtableBin ((ws.map (fun w => w ++ [10])).flatten ++ rest) ws.length
        = (ws.map (fun w => w ++ [0])).flatten
      ∧ tableLength ((ws.map (fun w => w ++ [10])).flatten ++ rest) ws.length
        = (ws.map List.length).sum + ws.length := by
  have h13 := no13_flattenWords ws (fun w hw => (h w hw).2)
  unfold wordtableBin tableLength
  rw [univNewlines_append_no13 _ _ h13,
    convLoop_words ws _ (fun w hw => (h w hw).1)]
  exact ⟨rfl, rfl⟩

theorem tableLength_eq (src : List Byte) (n : Nat) :
    tableLength src n = (wordtableBin src n).length :=
  convLoop_length n (univNewlines src)

/-! ### Claim theorems -/

/-- Claim C1, counterexample: the source `[97, 10]` (`"a\n"`) has one line,
fewer than the configured word count 3, yet the run does not abort: the loop
runs to completion (Python `readline` returns `""` at end of file instead of
raising), the binary output is written, and the constants file is emitted in
full — the program completes normally and reports success, contradicting the
claim that it fails with a Source-Truncated error. -/
theorem c1_short_source_counterexample :
    wordtableBin [97, 10] 3 = [97, 0] ∧
    tableLength [97, 10] 3 = 2 ∧
    sizesC [97, 10] 3 = "#include <stdint.h>\n#include <stddef.h>\n#include \"cobalt.h\"\n\nconst uint16_t NUMBER_OF_WORDS = 50000;\nconst size_t WORDTABLE_STRLEN = 1;" :=
  ⟨by decide, by decide, by decide⟩

/-- Claim C1, amended: if the source is exhausted within the first `n` reads
(in particular if it has fewer than `n` lines), the run does not fail: every
further `readline` returns the empty string and contributes no bytes, so a
run with any configured count `m ≥ n` completes normally and produces
exactly the same binary output, accumulated length, and constants file as
the run that stops at `n`. -/
theorem c1_short_source_completes (src : List Byte) (n m : Nat)
    (hnm : n ≤ m) (hrem : remInput src n = []) :
    wordtableBin src m = wordtableBin src n ∧
    tableLength src m = tableLength src n ∧
    sizesC src m = sizesC src n := by
  obtain ⟨k, rfl⟩ : ∃ k, m = n + k := ⟨m - n, by omega⟩
  have hr : (convLoop n (univNewlines src)).2.2 = [] := hrem
  have h1 : wordtableBin src (n + k) = wordtableBin src n := by
    unfold wordtableBin
    rw [convLoop_add, hr, convLoop_nil]
    simp
  have h2 : tableLength src (n + k) = tableLength src n := by
    unfold tableLength
    rw [convLoop_add, hr, convLoop_nil]
    simp
  have h3 : sizesC src (n + k) = sizesC src n := by
    unfold sizesC emittedStrlen
    rw [h2]
  exact ⟨h1, h2, h3⟩

/-- Claim C1, witness for `c1_short_source_completes` at the concrete
one-line source `[97, 10]` with counts 1 and 3. -/
theorem c1_short_source_completes_witness :
    1 ≤ 3 ∧ remInput [97, 10] 1 = [] ∧
    (wordtableBin [97, 10] 3 = wordtableBin [97, 10] 1 ∧
     tableLength [97, 10] 3 = tableLength [97, 10] 1 ∧
     sizesC [97, 10] 3 = sizesC [97, 10] 1) :=
  ⟨by decide, by decide,
    c1_short_source_completes [97, 10] 1 3 (by decide) (by decide)⟩

/-- Claim C2, evaluation at the failing input: with configured count 3 and
source `"ant\nbat\ncat\n"`, the binary output is the 12 claimed bytes and
the emitted `WORDTABLE_STRLEN` value is 11, but the emitted constants file
declares `NUMBER_OF_WORDS = 50000` (the hardcoded literal on line 42 of the
script), not 3 as the claim requires: the generated text equals the
spec-mandated fragment with count 50000 and differs from the fragment with
count 3. -/
theorem c2_concrete_scenario_eval :
    wordtableBin [97, 110, 116, 10, 98, 97, 116, 10, 99, 97, 116, 10] 3
      = [97, 110, 116, 0, 98, 97, 116, 0, 99, 97, 116, 0] ∧
    emittedStrlen [97, 110, 116, 10, 98, 97, 116, 10, 99, 97, 116, 10] 3 = 11 ∧
    sizesC [97, 110, 116, 10, 98, 97, 116, 10, 99, 97, 116, 10] 3
      = sizesFragment 50000 11 ∧
    (sizesC [97, 110, 116, 10, 98, 97, 116, 10, 99, 97, 116, 10] 3
      == sizesFragment 3 11) = false :=
  ⟨by decide, by decide, by decide, by decide⟩

/-- Claim C3, counterexample: with configured count 1 and source `[122, 122]`
(`"zz"` with no trailing newline), the run succeeds but the output is exactly
`[122, 122]`: it contains no null byte at all, so no null delimiter is
appended after the final word, contradicting the claim that every entry
including the last ends in a `0x00` byte. -/
theorem c3_no_trailing_null_counterexample :
    wordtableBin [122, 122] 1 = [122, 122] ∧
    (wordtableBin [122, 122] 1).count 0 = 0 :=
  ⟨by decide, by decide⟩

/-- Claim C3, amended: if the source has exactly `n` lines and the last line
`w` lacks a trailing newline, the run still succeeds, but no null delimiter
is appended after the final word: the output is the newline-terminated words
each followed by a null byte, with the final word appended verbatim and not
null-terminated. -/
theorem c3_missing_final_newline (ws : List (List Byte)) (w : List Byte)
    (h : ∀ u ∈ ws, 10 ∉ u ∧ 13 ∉ u) (h10 : 10 ∉ w) (h13 : 13 ∉ w)
    (hne : w ≠ []) :
    wordtableBin ((ws.map (fun u => u ++ [10])).flatten ++ w) (ws.length + 1)
      = (ws.map (fun u => u ++ [0])).flatten ++ w := by
  unfold wordtableBin
  rw [univNewlines_append_no13 _ _ (no13_flattenWords ws (fun u hu => (h u hu).2)),
    univNewlines_no13 w h13, convLoop_add ws.length 1,
    convLoop_words ws w (fun u hu => (h u hu).1)]
  simp [convLoop, readline_no10 w h10, replaceNL_no10 w h10]

/-- Claim C3, witness for `c3_missing_final_newline` at source `[97, 10, 98]`
(`"a\nb"`) with count 2. -/
theorem c3_missing_final_newline_witness :
    wordtableBin [97, 10, 98] 2 = [97, 0, 98] :=
  c3_missing_final_newline [[97]] [98] (by decide) (by decide) (by decide)
    (by decide)

/-- Claim C4, counterexample: for count 3 and source `"ant\nbat\ncat\n"`,
splitting the binary output on `0x00` yields 4 byte-strings (the three words
followed by a trailing empty string produced by the final terminating null),
not exactly 3 as the claim states. -/
theorem c4_split_count_counterexample :
    splitOnNull (wordtableBin [97, 110, 116, 10, 98, 97, 116, 10, 99, 97, 116, 10] 3)
      = [[97, 110, 116], [98, 97, 116], [99, 97, 116], []] ∧
    (splitOnNull (wordtableBin [97, 110, 116, 10, 98, 97, 116, 10, 99, 97, 116, 10] 3)).length
      = 4 :=
  ⟨by decide, by decide⟩

/-- Claim C4, amended: for every source whose first `n` lines are each
newline-terminated words containing no `0x00` (and no carriage return),
splitting the binary output on `0x00` yields exactly `n + 1` byte-strings —
the `n` words in order followed by one empty byte-string arising from the
final terminating null — and appending a newline to each of the first `n`
recovered byte-strings, in order, reproduces the first `n` lines of the
source exactly. -/
theorem c4_roundtrip (ws : List (List Byte)) (rest : List Byte)
    (h : ∀ w ∈ ws, 10 ∉ w ∧ 13 ∉ w ∧ 0 ∉ w) :
    splitOnNull (wordtableBin ((ws.map (fun w => w ++ [10])).flatten ++ rest) ws.length)
      = ws ++ [[]] ∧
    ((splitOnNull (wordtableBin ((ws.map (fun w => w ++ [10])).flatten ++ rest) ws.length)).dropLast.map
        (fun w => w ++ [10])).flatten
      = (ws.map (fun w => w ++ [10])).flatten := by
  have hbin := (wordtableBin_words ws rest (fun w hw => ⟨(h w hw).1, (h w hw).2.1⟩)).1
  have hsplit : splitOnNull (wordtableBin ((ws.map (fun w => w ++ [10])).flatten ++ rest) ws.length)
      = ws ++ [[]] := by
    rw [hbin, splitOnNull_flatten ws (fun w hw => (h w hw).2.2)]
  refine ⟨hsplit, ?_⟩
  rw [hsplit, List.dropLast_concat]

/-- Claim C4, witness for `c4_roundtrip` at source `[97, 10, 98, 99, 10, 100]`
(`"a\nbc\nd"`) with count 2. -/
theorem c4_roundtrip_witness :
    splitOnNull (wordtableBin [97, 10, 98, 99, 10, 100] 2) = [[97], [98, 99], []] ∧
    ((splitOnNull (wordtableBin [97, 10, 98, 99, 10, 100] 2)).dropLast.map
        (fun w => w ++ [10])).flatten = [97, 10, 98, 99, 10] :=
  c4_roundtrip [[97], [98, 99]] [100] (by decide)

/-- Claim C5: for every run, the accumulated `length` equals the number of
bytes written to `wordtable.bin`, and the value emitted as
`WORDTABLE_STRLEN` equals the binary output's total byte size minus 1
(as integers, so a zero-byte output yields -1, exactly as Python computes). -/
theorem c5_length_invariant (src : List Byte) (n : Nat) :
    tableLength src n = (wordtableBin src n).length ∧
    emittedStrlen src n = ((wordtableBin src n).length : Int) - 1 := by
  refine ⟨tableLength_eq src n, ?_⟩
  rw [emittedStrlen, tableLength_eq src n]

/-- Claim C6: for every source whose first `n` lines are each
newline-terminated (carriage-return-free) words, the byte length of the
binary output equals the sum of the words' raw byte lengths plus exactly
one delimiter byte per word. -/
theorem c6_length_sum (ws : List (List Byte)) (rest : List Byte)
    (h : ∀ w ∈ ws, 10 ∉ w ∧ 13 ∉ w) :
    (wordtableBin ((ws.map (fun w => w ++ [10])).flatten ++ rest) ws.length).length
      = (ws.map List.length).sum + ws.length := by
  rw [← tableLength_eq, (wordtableBin_words ws rest h).2]

/-- Claim C6, witness for `c6_length_sum` at `"ant\nbat\ncat\n"` with
count 3: the output length is 12 = (3 + 3 + 3) + 3. -/
theorem c6_length_sum_witness :
    (wordtableBin [97, 110, 116, 10, 98, 97, 116, 10, 99, 97, 116, 10] 3).length
      = 12 :=
  c6_length_sum [[97, 110, 116], [98, 97, 116], [99, 97, 116]] [] (by decide)

/-- Claim C7, evaluation at the failing input: for the spec's single-word
scenario (configured count 1, source `"zzz\n"`), the generated constants
file has the specified three-include structure with `WORDTABLE_STRLEN = 3`,
but its word-count declaration is the hardcoded literal `50000`, which is
not the configured count 1 that bounds the conversion loop. -/
theorem c7_emitted_count_eval :
    sizesC [122, 122, 122, 10] 1 = sizesFragment 50000 3 ∧
    (sizesC [122, 122, 122, 10] 1 == sizesFragment 1 3) = false :=
  ⟨by decide, by decide⟩

/-- Claim C8: the program is deterministic — two runs on the same source
content with the same configured count produce identical binary outputs,
identical accumulated lengths, and identical generated constants files. -/
theorem c8_deterministic (src1 src2 : List Byte) (n1 n2 : Nat)
    (hs : src1 = src2) (hn : n1 = n2) :
    wordtableBin src1 n1 = wordtableBin src2 n2 ∧
    tableLength src1 n1 = tableLength src2 n2 ∧
    sizesC src1 n1 = sizesC src2 n2 := by
  subst hs
  subst hn
  exact ⟨rfl, rfl, rfl⟩

/-- Claim C8, witness for `c8_deterministic` at source `[97, 10]` and
count 1. -/
theorem c8_deterministic_witness :
    wordtableBin [97, 10] 1 = wordtableBin [97, 10] 1 ∧
    tableLength [97, 10] 1 = tableLength [97, 10] 1 ∧
    sizesC [97, 10] 1 = sizesC [97, 10] 1 :=
  c8_deterministic [97, 10] [97, 10] 1 1 rfl rfl

/-- Claim C9: on every line actually produced by `readline` (which contains
at most one newline, and only at its end), the code's replace-all-newlines
transform `line.replace('\n', '\0')` agrees with the spec's
replace-first-newline transform. -/
theorem c9_replace_equiv (src : List Byte) :
    replaceNL (readline src).1 = replaceFirstNL (readline src).1 := by
  rcases readline_shape src with h | ⟨w, hw, he⟩
  · rw [replaceNL_no10 _ h, replaceFirstNL_no10 _ h]
  · rw [he, replaceNL_word w hw, replaceFirstNL_word w hw]

/-- Claim C10: the binary output file never contains a newline byte `0x0A`:
every newline read from the source is replaced with `0x00` before being
written, for every source content and every configured count. -/
theorem c10_no_newline_in_output (src : List Byte) (n : Nat) :
    (wordtableBin src n).count 10 = 0 :=
  List.count_eq_zero.mpr (convLoop_not_mem10 n (univNewlines src))

end NewlineToNull
